import Mathlib

/-!
Shallow embedding of the dicom-volume slicing and interpolation engine
(`src/volume.rs`, `src/interpolator.rs`, `src/enums.rs`).

Modelling conventions:
* Rust `f32` arithmetic is idealised as exact rational arithmetic (`ℚ`).
* The saturating casts `as u8`, `as u16`, `as u32`, `as usize` on floats
  truncate toward zero and saturate at 0 from below; the 2^32 / 2^64
  high-end caps are not modelled (the volumes the spec admits stay far
  below them).
* A Rust panic (out-of-bounds `ndarray` index, unsigned-subtraction
  underflow inside `ImageBuffer`) is modelled as `Option.none`; `u16`
  grid values are `ℕ` together with the in-range facts where needed.
* `rayon` parallel iteration is order-independent and pure, so it is
  modelled as the corresponding sequential list traversal.
-/

namespace DicomVolume

/-- Rust float-to-unsigned cast (`as usize` / `as u32`): truncate toward
zero, saturating at `0` from below. -/
def floorToNat (q : ℚ) : ℕ := (⌊q⌋).toNat

/-- Rust `as u16` cast: truncate toward zero and saturate into
`[0, 65535]`. -/
def toU16 (q : ℚ) : ℕ := min (⌊q⌋).toNat 65535

/-- `enums.rs`: `Orientation`. -/
inductive Orientation
  | Axial
  | Coronal
  | Sagittal
  deriving DecidableEq

/-- `enums.rs`: `Processor` (only the CPU variant exists). -/
inductive Processor
  | CPU
  deriving DecidableEq

/-- `enums.rs`: `Interpolation`. -/
inductive Interpolation
  | Bilinear (p : Processor)
  | None
  deriving DecidableEq

/-- A borrowed 2-D view (`ndarray::ArrayView2<u16>`): logical dimensions
`(height, width)` plus the value at each index pair. -/
structure Slice2 where
  height : ℕ
  width : ℕ
  val : ℕ → ℕ → ℕ

/-- `ndarray` indexing `slice[[y, x]]`; an out-of-bounds index panics,
modelled as `none`. -/
def Slice2.read (s : Slice2) (y x : ℕ) : Option ℕ :=
  if y < s.height ∧ x < s.width then some (s.val y x) else none

/-- An 8-bit grayscale image (`ImageBuffer<Luma<u8>, Vec<u8>>`):
declared dimensions plus the row-major pixel vector. -/
structure Image where
  width : ℕ
  height : ℕ
  pixels : List ℕ
  deriving DecidableEq

/-- `image::ImageBuffer::from_raw`: succeeds exactly when the buffer
length matches the declared `width * height`. -/
def imageFromRaw (width height : ℕ) (pixels : List ℕ) : Option Image :=
  if pixels.length = width * height then some ⟨width, height, pixels⟩ else none

/-- Collecting a list of fallible per-element results, failing as soon as
one element fails (a panic inside an iterator chain). -/
def mapOption {α β : Type} (f : α → Option β) : List α → Option (List β)
  | [] => some []
  | a :: as => (f a).bind fun b => (mapOption f as).bind fun bs => some (b :: bs)

namespace Interpolator

/-- `interpolator.rs`: `Interpolator::get_isotropic_dimensions`.
`spacing` is `(x, y, z)`, `original_dim` is `(depth, height, width)` =
`(z, y, x)`; the result is `(new_z, new_y, new_x)`.  The Rust code
multiplies by `1.0 / min_spacing` and converts with a truncating
`as u32` cast. -/
def get_isotropic_dimensions (spacing : ℚ × ℚ × ℚ) (original_dim : ℕ × ℕ × ℕ) :
    ℕ × ℕ × ℕ :=
  let x_spacing := spacing.1
  let y_spacing := spacing.2.1
  let z_spacing := spacing.2.2
  let min_spacing := min (min x_spacing y_spacing) z_spacing
  let inv_min_spacing := 1 / min_spacing
  let new_x := floorToNat ((original_dim.2.2 : ℚ) * x_spacing * inv_min_spacing)
  let new_y := floorToNat ((original_dim.2.1 : ℚ) * y_spacing * inv_min_spacing)
  let new_z := floorToNat ((original_dim.1 : ℚ) * z_spacing * inv_min_spacing)
  (new_z, new_y, new_x)

/-- `interpolator.rs`: `Interpolator::bilinear_interpolate`.  `y0`/`x0`
are the saturating `floor() as usize` casts and are NOT clamped to the
grid; only `y1`/`x1` are clamped to the last valid row/column.  The
four grid reads panic (here: `none`) when out of bounds. -/
def bilinear_interpolate (slice : Slice2) (y x : ℚ) : Option ℕ :=
  let height := slice.height
  let width := slice.width
  let y0 := floorToNat y
  let x0 := floorToNat x
  let y1 := min (y0 + 1) (height - 1)
  let x1 := min (x0 + 1) (width - 1)
  let dy := y - (y0 : ℚ)
  let dx := x - (x0 : ℚ)
  (slice.read y0 x0).bind fun v00 =>
  (slice.read y0 x1).bind fun v01 =>
  (slice.read y1 x0).bind fun v10 =>
  (slice.read y1 x1).bind fun v11 =>
  some (toU16 (((v00 : ℚ) * (1 - dx) + (v01 : ℚ) * dx) * (1 - dy) +
    ((v10 : ℚ) * (1 - dx) + (v11 : ℚ) * dx) * dy))

end Interpolator

/-- `volume.rs`: the `Volume` struct.  `data z y x` is the voxel at
depth `z`, row `y`, column `x`; axes are ordered (depth, height, width).
`spacing` is `(x, y, z)`. -/
structure Volume where
  depth : ℕ
  height : ℕ
  width : ℕ
  data : ℕ → ℕ → ℕ → ℕ
  spacing : ℚ × ℚ × ℚ
  interpolated_dim : ℕ × ℕ × ℕ

/-- `Volume::new`: stores the data and spacing and computes
`interpolated_dim` once from the original dimensions. -/
def Volume.new (depth height width : ℕ) (data : ℕ → ℕ → ℕ → ℕ)
    (spacing : ℚ × ℚ × ℚ) : Volume :=
  ⟨depth, height, width, data, spacing,
    Interpolator.get_isotropic_dimensions spacing (depth, height, width)⟩

/-- `Volume::normalize_to_u8`:
`((value as f32 / 65535.0) * 255.0).clamp(0.0, 255.0) as u8`. -/
def Volume.normalize_to_u8 (value : ℕ) : ℕ :=
  floorToNat (min (max (((value : ℚ) / 65535) * 255) 0) 255)

/-- The extent of the axis an orientation holds fixed (the bound used by
`Volume::is_valid_index`). -/
def Volume.axisExtent (v : Volume) : Orientation → ℕ
  | .Axial => v.depth
  | .Coronal => v.height
  | .Sagittal => v.width

/-- `Volume::is_valid_index`. -/
def Volume.is_valid_index (v : Volume) (index : ℕ) (orientation : Orientation) : Bool :=
  decide (index < v.axisExtent orientation)

/-- `Volume::get_slice_from_axis`: fixes one axis at `index`, keeping the
other two axes in natural order.  `ndarray`'s `slice` macro panics when
`index` is out of range (modelled as `none`); in range it always wraps
the view in `Some`. -/
def Volume.get_slice_from_axis (v : Volume) (index : ℕ) (orientation : Orientation) :
    Option Slice2 :=
  match orientation with
  | .Axial =>
      if index < v.depth then some ⟨v.height, v.width, fun y x => v.data index y x⟩
      else none
  | .Coronal =>
      if index < v.height then some ⟨v.depth, v.width, fun z x => v.data z index x⟩
      else none
  | .Sagittal =>
      if index < v.width then some ⟨v.depth, v.height, fun z y => v.data z y index⟩
      else none

/-- `Volume::get_plane_spacing` for the CPU path; the caller destructures
the result as `(target_width, target_height)`.  `interpolated_dim` is
`(z, y, x)`. -/
def Volume.get_plane_spacing (v : Volume) : Orientation → ℕ × ℕ
  | .Axial => (v.interpolated_dim.2.1, v.interpolated_dim.2.2)
  | .Coronal => (v.interpolated_dim.2.1, v.interpolated_dim.1)
  | .Sagittal => (v.interpolated_dim.2.2, v.interpolated_dim.1)

/-- `Volume::get_plane_spacing_gpu` for the GPU path; the caller
destructures the result as `(target_width, target_height)`. -/
def Volume.get_plane_spacing_gpu (v : Volume) : Orientation → ℕ × ℕ
  | .Axial => (v.interpolated_dim.2.2, v.interpolated_dim.2.1)
  | .Coronal => (v.interpolated_dim.2.2, v.interpolated_dim.1)
  | .Sagittal => (v.interpolated_dim.2.1, v.interpolated_dim.1)

/-- `Volume::slice_to_image`: normalize every sample of the view to 8 bit
in row-major order and hand the buffer to `ImageBuffer::from_raw` with
the view's own dimensions. -/
def Volume.slice_to_image (slice : Slice2) : Option Image :=
  let pixel_data := (List.range slice.height).flatMap fun y =>
    (List.range slice.width).map fun x => Volume.normalize_to_u8 (slice.val y x)
  imageFromRaw slice.width slice.height pixel_data

/-- `Volume::interpolate_slice`: align-corner scales
`scale = (source - 1) / max(target - 1, 1)`, one bilinear sample per
output pixel at `(row * scale_y, col * scale_x)`, row-major assembly,
then `ImageBuffer::from_raw`.  (For `target = 0` the Rust `u32`
subtraction would underflow; every call site has `target ≥ 1`.) -/
def Volume.interpolate_slice (slice : Slice2) (target_width target_height : ℕ) :
    Option Image :=
  let scale_x : ℚ := ((slice.width - 1 : ℕ) : ℚ) / ((max (target_width - 1) 1 : ℕ) : ℚ)
  let scale_y : ℚ := ((slice.height - 1 : ℕ) : ℚ) / ((max (target_height - 1) 1 : ℕ) : ℚ)
  (mapOption (fun (row : ℕ) =>
      mapOption (fun (col : ℕ) =>
          (Interpolator.bilinear_interpolate slice ((row : ℚ) * scale_y)
            ((col : ℚ) * scale_x)).map Volume.normalize_to_u8)
        (List.range target_width))
    (List.range target_height)).bind fun rows =>
  imageFromRaw target_width target_height rows.flatten

/-- `Volume::get_image_from_axis` (CPU dispatch): validate the index,
extract the raw plane, then either normalize it directly
(`Interpolation::None`, or `Bilinear` on the Axial plane) or resample it
to the `get_plane_spacing` target. -/
def Volume.get_image_from_axis (v : Volume) (index : ℕ) (orientation : Orientation)
    (interpolation : Interpolation) : Option Image :=
  if v.is_valid_index index orientation then
    (v.get_slice_from_axis index orientation).bind fun slice =>
      match interpolation with
      | .None => Volume.slice_to_image slice
      | .Bilinear _ =>
        match orientation with
        | .Axial => Volume.slice_to_image slice
        | _ =>
          Volume.interpolate_slice slice (v.get_plane_spacing orientation).1
            (v.get_plane_spacing orientation).2
  else none

/-- Modelled from the spec (§4.2): the half-pixel-center source
coordinate `clamp((target_coord + 0.5) / target_size * source_size - 0.5,
0, source_size - 1)` that claim C3 asserts the CPU resampler uses. -/
def specHalfPixelCoord (target_coord target_size source_size : ℚ) : ℚ :=
  min (max ((target_coord + 1/2) / target_size * source_size - 1/2) 0) (source_size - 1)

/-- Modelled from the spec: `round` to nearest (half away from zero on
the nonnegative values it is applied to). -/
def specRound (q : ℚ) : ℤ := ⌊q + 1/2⌋

/-- Modelled from the spec (§3): `isotropic_dim` computed with
round-to-nearest, as claim C5 states it. -/
def specIsotropicRounded (spacing : ℚ × ℚ × ℚ) (original_dim : ℕ × ℕ × ℕ) :
    ℕ × ℕ × ℕ :=
  let m := min (min spacing.1 spacing.2.1) spacing.2.2
  ((specRound ((original_dim.1 : ℚ) * spacing.2.2 / m)).toNat,
   (specRound ((original_dim.2.1 : ℚ) * spacing.2.1 / m)).toNat,
   (specRound ((original_dim.2.2 : ℚ) * spacing.1 / m)).toNat)

/-- Modelled from the spec (§4.2 step 3): 8-bit normalization with
round-to-nearest, as claim C8 states it. -/
def specNormalizeRounded (value : ℕ) : ℕ :=
  (specRound (min (max (((value : ℚ) / 65535) * 255) 0) 255)).toNat





/-- A 1×2 test plane holding the extreme 16-bit values 0 and 65535,
used to compare the implemented coordinate mapping with the spec's
half-pixel-center formula. -/
def testSlice12 : Slice2 := ⟨1, 2, fun _ x => if x = 0 then 0 else 65535⟩

section Helpers

lemma is_valid_index_iff (v : Volume) (idx : ℕ) (o : Orientation) :
    v.is_valid_index idx o = true ↔ idx < v.axisExtent o := by
  simp [Volume.is_valid_index]

lemma get_slice_from_axis_eq_none_iff (v : Volume) (idx : ℕ) (o : Orientation) :
    v.get_slice_from_axis idx o = none ↔ v.axisExtent o ≤ idx := by
  cases o <;>
    simp [Volume.get_slice_from_axis, Volume.axisExtent, ite_eq_right_iff, Nat.not_lt]

lemma get_slice_from_axis_of_valid (v : Volume) (idx : ℕ) (o : Orientation)
    (h : idx < v.axisExtent o) :
    v.get_slice_from_axis idx o = some
      (match o with
       | .Axial => ⟨v.height, v.width, fun y x => v.data idx y x⟩
       | .Coronal => ⟨v.depth, v.width, fun z x => v.data z idx x⟩
       | .Sagittal => ⟨v.depth, v.height, fun z y => v.data z y idx⟩) := by
  cases o <;> simp only [Volume.axisExtent] at h <;>
    simp [Volume.get_slice_from_axis, h]

lemma get_image_from_axis_none_mode (v : Volume) (idx : ℕ) (o : Orientation) :
    v.get_image_from_axis idx o Interpolation.None =
      (v.get_slice_from_axis idx o).bind Volume.slice_to_image := by
  by_cases h : idx < v.axisExtent o
  · simp [Volume.get_image_from_axis, Volume.is_valid_index, h]
  · rw [Volume.get_image_from_axis, if_neg, (get_slice_from_axis_eq_none_iff v idx o).mpr
      (Nat.not_lt.mp h), Option.none_bind]
    simp [Volume.is_valid_index, h]

lemma get_image_from_axis_bilinear_axial (v : Volume) (idx : ℕ) (p : Processor) :
    v.get_image_from_axis idx Orientation.Axial (Interpolation.Bilinear p) =
      (v.get_slice_from_axis idx Orientation.Axial).bind Volume.slice_to_image := by
  by_cases h : idx < v.axisExtent Orientation.Axial
  · simp [Volume.get_image_from_axis, Volume.is_valid_index, h]
  · rw [Volume.get_image_from_axis, if_neg,
      (get_slice_from_axis_eq_none_iff v idx Orientation.Axial).mpr (Nat.not_lt.mp h),
      Option.none_bind]
    simp [Volume.is_valid_index, h]

lemma get_image_from_axis_bilinear_coronal (v : Volume) (idx : ℕ) (p : Processor) :
    v.get_image_from_axis idx Orientation.Coronal (Interpolation.Bilinear p) =
      (v.get_slice_from_axis idx Orientation.Coronal).bind fun slice =>
        Volume.interpolate_slice slice (v.get_plane_spacing Orientation.Coronal).1
          (v.get_plane_spacing Orientation.Coronal).2 := by
  by_cases h : idx < v.axisExtent Orientation.Coronal
  · simp [Volume.get_image_from_axis, Volume.is_valid_index, h]
  · rw [Volume.get_image_from_axis, if_neg,
      (get_slice_from_axis_eq_none_iff v idx Orientation.Coronal).mpr (Nat.not_lt.mp h),
      Option.none_bind]
    simp [Volume.is_valid_index, h]

lemma get_image_from_axis_bilinear_sagittal (v : Volume) (idx : ℕ) (p : Processor) :
    v.get_image_from_axis idx Orientation.Sagittal (Interpolation.Bilinear p) =
      (v.get_slice_from_axis idx Orientation.Sagittal).bind fun slice =>
        Volume.interpolate_slice slice (v.get_plane_spacing Orientation.Sagittal).1
          (v.get_plane_spacing Orientation.Sagittal).2 := by
  by_cases h : idx < v.axisExtent Orientation.Sagittal
  · simp [Volume.get_image_from_axis, Volume.is_valid_index, h]
  · rw [Volume.get_image_from_axis, if_neg,
      (get_slice_from_axis_eq_none_iff v idx Orientation.Sagittal).mpr (Nat.not_lt.mp h),
      Option.none_bind]
    simp [Volume.is_valid_index, h]

lemma mapOption_length {α β : Type} (f : α → Option β) :
    ∀ {l : List α} {bs : List β}, mapOption f l = some bs → bs.length = l.length := by
  intro l
  induction l with
  | nil => intro bs h; simp [mapOption] at h; simp [h.symm]
  | cons a as ih =>
      intro bs h
      rcases hfa : f a with _ | b
      · rw [mapOption, hfa, Option.none_bind] at h; exact absurd h (by simp)
      · rw [mapOption, hfa, Option.some_bind] at h
        rcases hrest : mapOption f as with _ | bs2
        · rw [hrest, Option.none_bind] at h; exact absurd h (by simp)
        · rw [hrest, Option.some_bind] at h
          obtain rfl : b :: bs2 = bs := by simpa using h
          simp [ih hrest]

lemma mapOption_getElem? {α β : Type} (f : α → Option β) :
    ∀ {l : List α} {bs : List β}, mapOption f l = some bs →
      ∀ i : ℕ, bs[i]? = l[i]?.bind f := by
  intro l
  induction l with
  | nil => intro bs h i; simp [mapOption] at h; simp [h]
  | cons a as ih =>
      intro bs h i
      rcases hfa : f a with _ | b
      · rw [mapOption, hfa, Option.none_bind] at h; exact absurd h (by simp)
      · rw [mapOption, hfa, Option.some_bind] at h
        rcases hrest : mapOption f as with _ | bs2
        · rw [hrest, Option.none_bind] at h; exact absurd h (by simp)
        · rw [hrest, Option.some_bind] at h
          obtain rfl : b :: bs2 = bs := by simpa using h
          cases i with
          | zero => simp [hfa]
          | succ j => simpa using ih hrest j

lemma mapOption_isSome {α β : Type} (f : α → Option β) (l : List α)
    (h : ∀ a ∈ l, (f a).isSome) : (mapOption f l).isSome := by
  induction l with
  | nil => simp [mapOption]
  | cons a as ih =>
      rcases Option.isSome_iff_exists.mp (h a (List.mem_cons_self a as)) with ⟨b, hb⟩
      rcases Option.isSome_iff_exists.mp
        (ih fun x hx => h x (List.mem_cons_of_mem a hx)) with ⟨bs, hbs⟩
      simp [mapOption, hb, hbs]

lemma flatten_getElem?_uniform {α : Type} (w : ℕ) :
    ∀ (rows : List (List α)), (∀ r ∈ rows, r.length = w) →
      ∀ row col : ℕ, col < w →
        rows.flatten[row * w + col]? = rows[row]?.bind fun r => r[col]? := by
  intro rows
  induction rows with
  | nil => intro _ row col _; simp
  | cons r rs ih =>
      intro hlen row col hcol
      have hr : r.length = w := hlen r (List.mem_cons_self r rs)
      cases row with
      | zero =>
          rw [List.flatten_cons, List.getElem?_append_left (by omega)]
          simp
      | succ j =>
          rw [List.flatten_cons, List.getElem?_append_right (by nlinarith)]
          have harith : (j + 1) * w + col - r.length = j * w + col := by
            rw [hr]; ring_nf; omega
          rw [harith, ih (fun x hx => hlen x (List.mem_cons_of_mem r hx)) j col hcol]
          simp

lemma sum_map_length_uniform {α : Type} (w : ℕ) :
    ∀ (rows : List (List α)), (∀ r ∈ rows, r.length = w) →
      (rows.map List.length).sum = rows.length * w := by
  intro rows
  induction rows with
  | nil => intro _; simp
  | cons r rs ih =>
      intro hlen
      have hr : r.length = w := hlen r (List.mem_cons_self r rs)
      simp [hr, ih (fun x hx => hlen x (List.mem_cons_of_mem r hx)), Nat.succ_mul,
        Nat.add_comm]

lemma bilinear_interpolate_isSome (s : Slice2) (y x : ℚ)
    (hy : floorToNat y < s.height) (hx : floorToNat x < s.width) :
    (Interpolator.bilinear_interpolate s y x).isSome := by
  have hh : 0 < s.height := Nat.lt_of_le_of_lt (Nat.zero_le _) hy
  have hw : 0 < s.width := Nat.lt_of_le_of_lt (Nat.zero_le _) hx
  have hy1 : min (floorToNat y + 1) (s.height - 1) < s.height :=
    Nat.lt_of_le_of_lt (min_le_right _ _) (Nat.sub_lt hh Nat.one_pos)
  have hx1 : min (floorToNat x + 1) (s.width - 1) < s.width :=
    Nat.lt_of_le_of_lt (min_le_right _ _) (Nat.sub_lt hw Nat.one_pos)
  simp [Interpolator.bilinear_interpolate, Slice2.read, hy, hx, hy1, hx1]

lemma floorToNat_scale_lt (size target row : ℕ) (hsize : 0 < size) (hrow : row < target) :
    floorToNat ((row : ℚ) * (((size - 1 : ℕ) : ℚ) / ((max (target - 1) 1 : ℕ) : ℚ)))
      < size := by
  set M : ℕ := max (target - 1) 1 with hM
  have hM1 : 1 ≤ M := le_max_right _ _
  have hMQ : (0 : ℚ) < (M : ℚ) := by exact_mod_cast hM1
  have hrowM : (row : ℚ) ≤ (M : ℚ) := by
    have : row ≤ M := le_trans (Nat.le_sub_one_of_lt hrow) (le_max_left _ _)
    exact_mod_cast this
  have hval : (row : ℚ) * (((size - 1 : ℕ) : ℚ) / (M : ℚ)) ≤ ((size - 1 : ℕ) : ℚ) := by
    have hnn : (0 : ℚ) ≤ ((size - 1 : ℕ) : ℚ) / (M : ℚ) :=
      div_nonneg (Nat.cast_nonneg _) hMQ.le
    calc (row : ℚ) * (((size - 1 : ℕ) : ℚ) / (M : ℚ))
        ≤ (M : ℚ) * (((size - 1 : ℕ) : ℚ) / (M : ℚ)) :=
          mul_le_mul_of_nonneg_right hrowM hnn
      _ = ((size - 1 : ℕ) : ℚ) := mul_div_cancel₀ _ hMQ.ne'
  have hfloor : ⌊(row : ℚ) * (((size - 1 : ℕ) : ℚ) / (M : ℚ))⌋ ≤ ((size - 1 : ℕ) : ℤ) := by
    calc ⌊(row : ℚ) * (((size - 1 : ℕ) : ℚ) / (M : ℚ))⌋ ≤ ⌊((size - 1 : ℕ) : ℚ)⌋ :=
          Int.floor_le_floor hval
      _ = ((size - 1 : ℕ) : ℤ) := Int.floor_natCast _
  have : floorToNat ((row : ℚ) * (((size - 1 : ℕ) : ℚ) / (M : ℚ))) ≤ size - 1 := by
    rw [floorToNat]
    calc (⌊(row : ℚ) * (((size - 1 : ℕ) : ℚ) / (M : ℚ))⌋).toNat
        ≤ (((size - 1 : ℕ) : ℤ)).toNat := Int.toNat_le_toNat hfloor
      _ = size - 1 := Int.toNat_ofNat _
  exact Nat.lt_of_le_of_lt this (Nat.sub_lt hsize Nat.one_pos)

lemma interpolate_slice_spec (s : Slice2) (tw th : ℕ)
    (hh : 0 < s.height) (hw : 0 < s.width) :
    ∃ img, Volume.interpolate_slice s tw th = some img ∧ img.width = tw ∧
      img.height = th ∧ img.pixels.length = img.width * img.height := by
  simp only [Volume.interpolate_slice]
  have hinner : ∀ row ∈ List.range th,
      (mapOption (fun (col : ℕ) =>
          (Interpolator.bilinear_interpolate s
              ((row : ℚ) * (((s.height - 1 : ℕ) : ℚ) / ((max (th - 1) 1 : ℕ) : ℚ)))
              ((col : ℚ) * (((s.width - 1 : ℕ) : ℚ) / ((max (tw - 1) 1 : ℕ) : ℚ)))).map
            Volume.normalize_to_u8)
        (List.range tw)).isSome := by
    intro row hrow
    refine mapOption_isSome _ _ fun col hcol => ?_
    rw [Option.isSome_map']
    exact bilinear_interpolate_isSome s _ _
      (floorToNat_scale_lt s.height th row hh (List.mem_range.mp hrow))
      (floorToNat_scale_lt s.width tw col hw (List.mem_range.mp hcol))
  obtain ⟨rows, hrows⟩ := Option.isSome_iff_exists.mp (mapOption_isSome _ _ hinner)
  have hrowslen : rows.length = th := by
    simpa using mapOption_length _ hrows
  have hrowlen : ∀ r ∈ rows, r.length = tw := by
    intro r hr
    obtain ⟨i, hilt, hi⟩ := List.mem_iff_getElem.mp hr
    have h1 : rows[i]? = some r := by rw [List.getElem?_eq_getElem hilt, hi]
    have h3 := h1.symm.trans (mapOption_getElem? _ hrows i)
    rw [List.getElem?_range (by rw [hrowslen] at hilt; exact hilt),
      Option.some_bind] at h3
    simpa using mapOption_length _ h3.symm
  have hflatlen : rows.flatten.length = tw * th := by
    rw [List.length_flatten, sum_map_length_uniform tw rows hrowlen, hrowslen,
      Nat.mul_comm]
  refine ⟨⟨tw, th, rows.flatten⟩, ?_, rfl, rfl, ?_⟩
  · rw [hrows, Option.some_bind, imageFromRaw, if_pos hflatlen]
  · simpa using hflatlen


lemma slice_to_image_spec (s : Slice2) :
    ∃ img, Volume.slice_to_image s = some img ∧ img.width = s.width ∧
      img.height = s.height ∧ img.pixels.length = img.width * img.height ∧
      ∀ r c : ℕ, r < s.height → c < s.width →
        img.pixels[r * s.width + c]? = some (Volume.normalize_to_u8 (s.val r c)) := by
  have hflat : ((List.range s.height).flatMap fun y =>
      (List.range s.width).map fun x => Volume.normalize_to_u8 (s.val y x)) =
      ((List.range s.height).map fun y =>
        (List.range s.width).map fun x => Volume.normalize_to_u8 (s.val y x)).flatten :=
    List.flatMap_def _ _
  set rows := (List.range s.height).map fun y =>
    (List.range s.width).map fun x => Volume.normalize_to_u8 (s.val y x) with hrowsdef
  have hlen : ∀ r ∈ rows, r.length = s.width := by
    intro r hr
    obtain ⟨y, hy, rfl⟩ := List.mem_map.mp hr
    simp
  have hflatlen : rows.flatten.length = s.width * s.height := by
    rw [List.length_flatten, sum_map_length_uniform s.width rows hlen, hrowsdef]
    simp [Nat.mul_comm]
  refine ⟨⟨s.width, s.height, rows.flatten⟩, ?_, rfl, rfl, ?_, ?_⟩
  · simp only [Volume.slice_to_image]
    rw [hflat, imageFromRaw, if_pos hflatlen]
  · simpa using hflatlen
  · intro r c hr hc
    rw [flatten_getElem?_uniform s.width rows hlen r c hc, hrowsdef,
      List.getElem?_map, List.getElem?_range hr]
    simp only [Option.map_some', Option.some_bind]
    rw [List.getElem?_map, List.getElem?_range hc]
    simp

lemma le_floorToNat_scale (n : ℕ) (s m : ℚ) (hm : 0 < m) (hms : m ≤ s) :
    n ≤ floorToNat ((n : ℚ) * s * (1 / m)) := by
  have hs1 : (1 : ℚ) ≤ s * (1 / m) := by
    rw [mul_one_div]
    exact (one_le_div hm).mpr hms
  have h1 : (n : ℚ) ≤ (n : ℚ) * s * (1 / m) := by
    calc (n : ℚ) = (n : ℚ) * 1 := (mul_one _).symm
      _ ≤ (n : ℚ) * (s * (1 / m)) := mul_le_mul_of_nonneg_left hs1 (Nat.cast_nonneg n)
      _ = (n : ℚ) * s * (1 / m) := (mul_assoc _ _ _).symm
  have h2 : ((n : ℕ) : ℤ) ≤ ⌊(n : ℚ) * s * (1 / m)⌋ := by
    rw [Int.le_floor]
    push_cast
    exact h1
  simp only [floorToNat]
  calc n = (((n : ℕ) : ℤ)).toNat := (Int.toNat_ofNat n).symm
    _ ≤ _ := Int.toNat_le_toNat h2

lemma floorToNat_scale_self (n : ℕ) (m : ℚ) (hm : 0 < m) :
    floorToNat ((n : ℚ) * m * (1 / m)) = n := by
  rw [mul_assoc, mul_one_div, div_self hm.ne', mul_one]
  simp [floorToNat]

lemma isotropic_dim_ge (spacing : ℚ × ℚ × ℚ) (dim : ℕ × ℕ × ℕ)
    (hx : 0 < spacing.1) (hy : 0 < spacing.2.1) (hz : 0 < spacing.2.2) :
    dim.1 ≤ (Interpolator.get_isotropic_dimensions spacing dim).1 ∧
    dim.2.1 ≤ (Interpolator.get_isotropic_dimensions spacing dim).2.1 ∧
    dim.2.2 ≤ (Interpolator.get_isotropic_dimensions spacing dim).2.2 := by
  have hmpos : 0 < min (min spacing.1 spacing.2.1) spacing.2.2 :=
    lt_min (lt_min hx hy) hz
  refine ⟨?_, ?_, ?_⟩ <;> simp only [Interpolator.get_isotropic_dimensions]
  · exact le_floorToNat_scale dim.1 spacing.2.2 _ hmpos (min_le_right _ _)
  · exact le_floorToNat_scale dim.2.1 spacing.2.1 _ hmpos
      (le_trans (min_le_left _ _) (min_le_right _ _))
  · exact le_floorToNat_scale dim.2.2 spacing.1 _ hmpos
      (le_trans (min_le_left _ _) (min_le_left _ _))


lemma get_image_from_axis_total (d h w : ℕ) (data : ℕ → ℕ → ℕ → ℕ)
    (spacing : ℚ × ℚ × ℚ) (idx : ℕ) (o : Orientation) (interp : Interpolation)
    (hd : 0 < d) (hh : 0 < h) (hw : 0 < w)
    (hx : 0 < spacing.1) (hy : 0 < spacing.2.1) (hz : 0 < spacing.2.2)
    (hidx : idx < (Volume.new d h w data spacing).axisExtent o) :
    ∃ img, (Volume.new d h w data spacing).get_image_from_axis idx o interp = some img ∧
      img.pixels.length = img.width * img.height := by
  cases interp with
  | None =>
      rw [get_image_from_axis_none_mode,
        get_slice_from_axis_of_valid _ idx o hidx, Option.some_bind]
      cases o
      case Axial =>
        obtain ⟨img, h1, _, _, h4, _⟩ := slice_to_image_spec
          ⟨(Volume.new d h w data spacing).height, (Volume.new d h w data spacing).width,
            fun y x => (Volume.new d h w data spacing).data idx y x⟩
        exact ⟨img, h1, h4⟩
      case Coronal =>
        obtain ⟨img, h1, _, _, h4, _⟩ := slice_to_image_spec
          ⟨(Volume.new d h w data spacing).depth, (Volume.new d h w data spacing).width,
            fun z x => (Volume.new d h w data spacing).data z idx x⟩
        exact ⟨img, h1, h4⟩
      case Sagittal =>
        obtain ⟨img, h1, _, _, h4, _⟩ := slice_to_image_spec
          ⟨(Volume.new d h w data spacing).depth, (Volume.new d h w data spacing).height,
            fun z y => (Volume.new d h w data spacing).data z y idx⟩
        exact ⟨img, h1, h4⟩
  | Bilinear p =>
      cases o
      case Axial =>
        rw [get_image_from_axis_bilinear_axial,
          get_slice_from_axis_of_valid _ idx _ hidx, Option.some_bind]
        obtain ⟨img, h1, _, _, h4, _⟩ := slice_to_image_spec
          ⟨(Volume.new d h w data spacing).height, (Volume.new d h w data spacing).width,
            fun y x => (Volume.new d h w data spacing).data idx y x⟩
        exact ⟨img, h1, h4⟩
      case Coronal =>
        rw [get_image_from_axis_bilinear_coronal,
          get_slice_from_axis_of_valid _ idx _ hidx, Option.some_bind]
        obtain ⟨img, h1, _, _, h4⟩ := interpolate_slice_spec
          ⟨(Volume.new d h w data spacing).depth, (Volume.new d h w data spacing).width,
            fun z x => (Volume.new d h w data spacing).data z idx x⟩
          ((Volume.new d h w data spacing).get_plane_spacing Orientation.Coronal).1
          ((Volume.new d h w data spacing).get_plane_spacing Orientation.Coronal).2
          hd hw
        exact ⟨img, h1, h4⟩
      case Sagittal =>
        rw [get_image_from_axis_bilinear_sagittal,
          get_slice_from_axis_of_valid _ idx _ hidx, Option.some_bind]
        obtain ⟨img, h1, _, _, h4⟩ := interpolate_slice_spec
          ⟨(Volume.new d h w data spacing).depth, (Volume.new d h w data spacing).height,
            fun z y => (Volume.new d h w data spacing).data z y idx⟩
          ((Volume.new d h w data spacing).get_plane_spacing Orientation.Sagittal).1
          ((Volume.new d h w data spacing).get_plane_spacing Orientation.Sagittal).2
          hd hh
        exact ⟨img, h1, h4⟩


lemma get_image_from_axis_none_of_invalid (v : Volume) (idx : ℕ) (o : Orientation)
    (interp : Interpolation) (hge : v.axisExtent o ≤ idx) :
    v.get_image_from_axis idx o interp = none := by
  have hnv : ¬ (v.is_valid_index idx o = true) := by
    simp only [Volume.is_valid_index, decide_eq_true_eq]
    omega
  rw [Volume.get_image_from_axis, if_neg hnv]


lemma testSlice12_eval :
    Volume.interpolate_slice testSlice12 4 1 = some ⟨4, 1, [0, 85, 170, 255]⟩ := by
  norm_num [Volume.interpolate_slice, mapOption, List.range_succ, testSlice12,
    Interpolator.bilinear_interpolate, Slice2.read, floorToNat, toU16,
    Volume.normalize_to_u8, imageFromRaw]
  simp only [Int.reduceToNat]
  norm_num
  decide

end Helpers


section Claims

/-- C2 counterexample: for the volume with dimensions (depth, height,
width) = (1, 2, 3) and isotropic spacing, the CPU dispatch derives the
Coronal target pair (2, 1) while the GPU dispatch derives (3, 1); the
two paths do not share one fixed orientation-to-(width, height) table. -/
theorem C2_counterexample :
    (Volume.new 1 2 3 (fun _ _ _ => 0) (1, 1, 1)).get_plane_spacing Orientation.Coronal
        = (2, 1) ∧
    (Volume.new 1 2 3 (fun _ _ _ => 0) (1, 1, 1)).get_plane_spacing_gpu Orientation.Coronal
        = (3, 1) ∧
    ((2, 1) : ℕ × ℕ) ≠ (3, 1) := by
  refine ⟨?_, ?_, by decide⟩ <;>
    norm_num [Volume.new, Volume.get_plane_spacing, Volume.get_plane_spacing_gpu,
      Interpolator.get_isotropic_dimensions, floorToNat] <;> decide

/-- C2 (amended): the CPU and GPU orientation-to-(target width, target
height) tables are distinct fixed mappings; for every orientation they
produce the same pair exactly when the isotropic height equals the
isotropic width (`interpolated_dim.1` is depth, `.2.1` height, `.2.2`
width). -/
theorem C2_cpu_gpu_plane_spacing_agree_iff (v : Volume) (o : Orientation) :
    v.get_plane_spacing o = v.get_plane_spacing_gpu o ↔
      v.interpolated_dim.2.1 = v.interpolated_dim.2.2 := by
  cases o <;>
    simp [Volume.get_plane_spacing, Volume.get_plane_spacing_gpu, Prod.ext_iff] <;>
    omega

/-- C4 counterexample: `bilinear_interpolate` is not total on all finite
coordinates: on the non-empty 1×1 grid the coordinate pair (1, 0) makes
`y0 = 1` (never clamped), so the grid access is out of bounds instead
of clamping to the last valid row. -/
theorem C4_counterexample :
    Interpolator.bilinear_interpolate ⟨1, 1, fun _ _ => 42⟩ 1 0 = none := by
  norm_num [Interpolator.bilinear_interpolate, Slice2.read, floorToNat]

/-- C4 (amended): `bilinear_interpolate` returns a value EXACTLY when
the saturating floored casts of the coordinates land inside the grid:
negative coordinates saturate to row/column 0, and only `y1`/`x1` are
clamped to the last valid row/column; whenever a floored coordinate
reaches the grid extent the (unclamped) `y0`/`x0` access is out of
bounds and the call fails instead of clamping. -/
theorem C4_bilinear_total_on_floored_range (s : Slice2) (y x : ℚ) :
    (Interpolator.bilinear_interpolate s y x).isSome ↔
      (floorToNat y < s.height ∧ floorToNat x < s.width) := by
  constructor
  · intro hsome
    by_contra hcon
    have hread : s.read (floorToNat y) (floorToNat x) = none := by
      rw [Slice2.read, if_neg hcon]
    rw [Interpolator.bilinear_interpolate] at hsome
    rw [hread, Option.none_bind] at hsome
    exact Bool.noConfusion hsome
  · intro hyx
    exact bilinear_interpolate_isSome s y x hyx.1 hyx.2

/-- C5 counterexample: with spacing (x, y, z) = (3/2, 1, 1) and original
dimensions (1, 1, 3) the x axis scales to 3 · (3/2) = 4.5, which the
code truncates to 4 while round-to-nearest gives 5. -/
theorem C5_counterexample :
    Interpolator.get_isotropic_dimensions (3/2, 1, 1) (1, 1, 3) = (1, 1, 4) ∧
    specIsotropicRounded (3/2, 1, 1) (1, 1, 3) = (1, 1, 5) ∧
    Interpolator.get_isotropic_dimensions (3/2, 1, 1) (1, 1, 3) ≠
      specIsotropicRounded (3/2, 1, 1) (1, 1, 3) := by
  have h1 : Interpolator.get_isotropic_dimensions (3/2, 1, 1) (1, 1, 3) = (1, 1, 4) := by
    norm_num [Interpolator.get_isotropic_dimensions, floorToNat]
    decide
  have h2 : specIsotropicRounded (3/2, 1, 1) (1, 1, 3) = (1, 1, 5) := by
    norm_num [specIsotropicRounded, specRound]
    decide
  refine ⟨h1, h2, ?_⟩
  rw [h1, h2]
  decide

/-- C5 (amended): each axis of the isotropic dimensions equals the
TRUNCATION (not round-to-nearest) of
`original_dim[i] * spacing[i] / min(spacing)`, the minimum being taken
across all three spacing components. -/
theorem C5_isotropic_dim_truncated (spacing : ℚ × ℚ × ℚ) (original_dim : ℕ × ℕ × ℕ) :
    Interpolator.get_isotropic_dimensions spacing original_dim =
      ((⌊(original_dim.1 : ℚ) * spacing.2.2 /
          min (min spacing.1 spacing.2.1) spacing.2.2⌋).toNat,
       (⌊(original_dim.2.1 : ℚ) * spacing.2.1 /
          min (min spacing.1 spacing.2.1) spacing.2.2⌋).toNat,
       (⌊(original_dim.2.2 : ℚ) * spacing.1 /
          min (min spacing.1 spacing.2.1) spacing.2.2⌋).toNat) := by
  simp [Interpolator.get_isotropic_dimensions, floorToNat, div_eq_mul_inv, one_div]

/-- C7: for strictly positive spacing each isotropic dimension is at
least the original size, and every axis whose spacing equals the
minimum spacing keeps exactly its original size. -/
theorem C7_isotropic_dim_ge_original (spacing : ℚ × ℚ × ℚ) (original_dim : ℕ × ℕ × ℕ)
    (hx : 0 < spacing.1) (hy : 0 < spacing.2.1) (hz : 0 < spacing.2.2) :
    (original_dim.1 ≤ (Interpolator.get_isotropic_dimensions spacing original_dim).1 ∧
     original_dim.2.1 ≤ (Interpolator.get_isotropic_dimensions spacing original_dim).2.1 ∧
     original_dim.2.2 ≤ (Interpolator.get_isotropic_dimensions spacing original_dim).2.2) ∧
    (spacing.2.2 = min (min spacing.1 spacing.2.1) spacing.2.2 →
      (Interpolator.get_isotropic_dimensions spacing original_dim).1 = original_dim.1) ∧
    (spacing.2.1 = min (min spacing.1 spacing.2.1) spacing.2.2 →
      (Interpolator.get_isotropic_dimensions spacing original_dim).2.1 = original_dim.2.1) ∧
    (spacing.1 = min (min spacing.1 spacing.2.1) spacing.2.2 →
      (Interpolator.get_isotropic_dimensions spacing original_dim).2.2 = original_dim.2.2) := by
  have hmpos : 0 < min (min spacing.1 spacing.2.1) spacing.2.2 :=
    lt_min (lt_min hx hy) hz
  refine ⟨isotropic_dim_ge spacing original_dim hx hy hz, ?_, ?_, ?_⟩
  · intro heq
    simp only [Interpolator.get_isotropic_dimensions]
    nth_rewrite 1 [heq]
    exact floorToNat_scale_self original_dim.1 _ hmpos
  · intro heq
    simp only [Interpolator.get_isotropic_dimensions]
    nth_rewrite 1 [heq]
    exact floorToNat_scale_self original_dim.2.1 _ hmpos
  · intro heq
    simp only [Interpolator.get_isotropic_dimensions]
    nth_rewrite 1 [heq]
    exact floorToNat_scale_self original_dim.2.2 _ hmpos

/-- C7 witness: the spec's example, spacing (1, 1, 2) with dimensions
(100, 200, 300): all axes at least their original size and both
minimum-spacing axes (x and y) exactly preserved. -/
theorem C7_witness :
    (100 ≤ (Interpolator.get_isotropic_dimensions (1, 1, 2) (100, 200, 300)).1 ∧
     200 ≤ (Interpolator.get_isotropic_dimensions (1, 1, 2) (100, 200, 300)).2.1 ∧
     300 ≤ (Interpolator.get_isotropic_dimensions (1, 1, 2) (100, 200, 300)).2.2) ∧
    ((2 : ℚ) = min (min 1 1) 2 →
      (Interpolator.get_isotropic_dimensions (1, 1, 2) (100, 200, 300)).1 = 100) ∧
    ((1 : ℚ) = min (min 1 1) 2 →
      (Interpolator.get_isotropic_dimensions (1, 1, 2) (100, 200, 300)).2.1 = 200) ∧
    ((1 : ℚ) = min (min 1 1) 2 →
      (Interpolator.get_isotropic_dimensions (1, 1, 2) (100, 200, 300)).2.2 = 300) :=
  C7_isotropic_dim_ge_original (1, 1, 2) (100, 200, 300) (by norm_num) (by norm_num)
    (by norm_num)


/-- C6: `get_image_from_axis` on a non-empty volume with strictly
positive spacing fails (returns no image, the `IndexOutOfRange` outcome)
exactly when the index reaches the extent of the orientation's fixed
axis (Axial: depth, Coronal: height, Sagittal: width), for every
interpolation mode; every strictly smaller index passes validation and
produces an image. -/
theorem C6_index_validation_iff (d h w : ℕ) (data : ℕ → ℕ → ℕ → ℕ)
    (spacing : ℚ × ℚ × ℚ) (idx : ℕ) (o : Orientation) (interp : Interpolation)
    (hd : 0 < d) (hh : 0 < h) (hw : 0 < w)
    (hx : 0 < spacing.1) (hy : 0 < spacing.2.1) (hz : 0 < spacing.2.2) :
    ((Volume.new d h w data spacing).get_image_from_axis idx o interp = none ↔
      (match o with
       | Orientation.Axial => d
       | Orientation.Coronal => h
       | Orientation.Sagittal => w) ≤ idx) := by
  have hext : (Volume.new d h w data spacing).axisExtent o =
      (match o with
       | Orientation.Axial => d
       | Orientation.Coronal => h
       | Orientation.Sagittal => w) := by
    cases o <;> rfl
  constructor
  · intro hnone
    by_contra hcon
    push_neg at hcon
    obtain ⟨img, himg, _⟩ := get_image_from_axis_total d h w data spacing idx o interp
      hd hh hw hx hy hz (by rw [hext]; exact hcon)
    rw [himg] at hnone
    exact Option.noConfusion hnone
  · intro hge
    exact get_image_from_axis_none_of_invalid _ idx o interp (by rw [hext]; exact hge)

/-- C6 witness: on the 1×1×1 volume, requesting Axial index 1 (== the
depth, one past the last valid index) fails. -/
theorem C6_witness :
    ((Volume.new 1 1 1 (fun _ _ _ => 7) (1, 1, 1)).get_image_from_axis 1 Orientation.Axial
        Interpolation.None = none ↔ 1 ≤ 1) :=
  C6_index_validation_iff 1 1 1 (fun _ _ _ => 7) (1, 1, 1) 1 Orientation.Axial
    Interpolation.None (by norm_num) (by norm_num) (by norm_num) (by norm_num)
    (by norm_num) (by norm_num)

/-- C9: `get_slice_from_axis` returns, for an index below the extent of
the orientation's fixed axis, the 2-D plane obtained by fixing that axis
at the index with the remaining axes in natural order, and fails (the
`IndexOutOfRange` outcome, a panic in the Rust code) for an index at or
beyond that extent. -/
theorem C9_get_slice_spec (v : Volume) (idx : ℕ) (o : Orientation) :
    (v.axisExtent o ≤ idx → v.get_slice_from_axis idx o = none) ∧
    (idx < v.axisExtent o → ∃ s, v.get_slice_from_axis idx o = some s ∧
      s.height = (match o with
        | Orientation.Axial => v.height
        | Orientation.Coronal => v.depth
        | Orientation.Sagittal => v.depth) ∧
      s.width = (match o with
        | Orientation.Axial => v.width
        | Orientation.Coronal => v.width
        | Orientation.Sagittal => v.height) ∧
      ∀ a b : ℕ, s.val a b = (match o with
        | Orientation.Axial => v.data idx a b
        | Orientation.Coronal => v.data a idx b
        | Orientation.Sagittal => v.data a b idx)) := by
  refine ⟨fun hge => (get_slice_from_axis_eq_none_iff v idx o).mpr hge, fun hlt => ?_⟩
  cases o
  · exact ⟨_, get_slice_from_axis_of_valid v idx _ hlt, rfl, rfl, fun a b => rfl⟩
  · exact ⟨_, get_slice_from_axis_of_valid v idx _ hlt, rfl, rfl, fun a b => rfl⟩
  · exact ⟨_, get_slice_from_axis_of_valid v idx _ hlt, rfl, rfl, fun a b => rfl⟩

/-- C9 witness: on a 2×3×4 volume, the Coronal slice at index 1 is the
2×4 plane `(z, x) ↦ data z 1 x` and the Coronal slice at index 5 fails. -/
theorem C9_witness :
    (Volume.new 2 3 4 (fun z y x => z + y + x) (1, 1, 1)).get_slice_from_axis 5
        Orientation.Coronal = none ∧
    ∃ s, (Volume.new 2 3 4 (fun z y x => z + y + x) (1, 1, 1)).get_slice_from_axis 1
        Orientation.Coronal = some s ∧ s.height = 2 ∧ s.width = 4 ∧
      ∀ a b : ℕ, s.val a b = a + 1 + b := by
  refine ⟨(C9_get_slice_spec _ 5 Orientation.Coronal).1 (by decide), ?_⟩
  obtain ⟨s, h1, h2, h3, h4⟩ := (C9_get_slice_spec
    (Volume.new 2 3 4 (fun z y x => z + y + x) (1, 1, 1)) 1 Orientation.Coronal).2 (by decide)
  exact ⟨s, h1, h2, h3, h4⟩

/-- C10: on a non-empty volume with strictly positive spacing, for every
valid index, orientation and interpolation mode the assembled pixel
vector has length exactly the declared output width times height, so the
image constructor accepts it and `get_image_from_axis` returns an image. -/
theorem C10_buffer_assembly_unreachable (d h w : ℕ) (data : ℕ → ℕ → ℕ → ℕ)
    (spacing : ℚ × ℚ × ℚ) (idx : ℕ) (o : Orientation) (interp : Interpolation)
    (hd : 0 < d) (hh : 0 < h) (hw : 0 < w)
    (hx : 0 < spacing.1) (hy : 0 < spacing.2.1) (hz : 0 < spacing.2.2)
    (hidx : idx < (match o with
       | Orientation.Axial => d
       | Orientation.Coronal => h
       | Orientation.Sagittal => w)) :
    ∃ img, (Volume.new d h w data spacing).get_image_from_axis idx o interp = some img ∧
      img.pixels.length = img.width * img.height :=
  get_image_from_axis_total d h w data spacing idx o interp hd hh hw hx hy hz
    (by cases o <;> exact hidx)

/-- C10 witness: the 1×2×3 volume at Coronal index 1 with CPU bilinear
interpolation yields an image whose buffer length matches its declared
dimensions. -/
theorem C10_witness :
    ∃ img, (Volume.new 1 2 3 (fun z y x => z + y + x) (1, 1, 1)).get_image_from_axis 1
        Orientation.Coronal (Interpolation.Bilinear Processor.CPU) = some img ∧
      img.pixels.length = img.width * img.height :=
  C10_buffer_assembly_unreachable 1 2 3 (fun z y x => z + y + x) (1, 1, 1) 1
    Orientation.Coronal (Interpolation.Bilinear Processor.CPU) (by norm_num) (by norm_num)
    (by norm_num) (by norm_num) (by norm_num) (by norm_num) (by norm_num)


/-- C8 counterexample: `Interpolation::None` normalizes by TRUNCATION:
the single voxel 129 maps to `129/65535*255 ≈ 0.5019`, truncated to
pixel 0, whereas round-to-nearest as claimed would give 1. -/
theorem C8_counterexample :
    (Volume.new 1 1 1 (fun _ _ _ => 129) (1, 1, 1)).get_image_from_axis 0 Orientation.Axial
        Interpolation.None = some ⟨1, 1, [0]⟩ ∧
    specNormalizeRounded 129 = 1 ∧ (0 : ℕ) ≠ 1 := by
  refine ⟨?_, ?_, by decide⟩
  · rw [get_image_from_axis_none_mode,
      get_slice_from_axis_of_valid _ 0 Orientation.Axial (by decide), Option.some_bind]
    norm_num [Volume.new, Volume.slice_to_image, List.range_succ, Volume.normalize_to_u8,
      floorToNat, imageFromRaw]
  · norm_num [specNormalizeRounded, specRound]

/-- C8 (amended): for every valid `Interpolation::None` request the
returned image has exactly the raw plane dimensions and every sample is
the 16-bit source value normalized to 8 bit by the TRUNCATING
`normalize_to_u8` (floor of `clamp(value/65535*255, 0, 255)`), not by
round-to-nearest. -/
theorem C8_none_mode_truncating_normalize (v : Volume) (idx : ℕ) (o : Orientation)
    (slice : Slice2) (hs : v.get_slice_from_axis idx o = some slice) :
    ∃ img, v.get_image_from_axis idx o Interpolation.None = some img ∧
      img.width = slice.width ∧ img.height = slice.height ∧
      ∀ r c : ℕ, r < slice.height → c < slice.width →
        img.pixels[r * slice.width + c]? = some (Volume.normalize_to_u8 (slice.val r c)) := by
  rw [get_image_from_axis_none_mode, hs, Option.some_bind]
  obtain ⟨img, h1, h2, h3, _, h5⟩ := slice_to_image_spec slice
  exact ⟨img, h1, h2, h3, h5⟩

/-- C8 witness: the 1×1×2 volume with voxels (129, 257) at Axial index 0
returns a 2×1 image whose pixels are the truncating normalization of
the sources. -/
theorem C8_witness :
    ∃ img, (Volume.new 1 1 2 (fun _ _ x => if x = 0 then 129 else 257) (1, 1, 1)).get_image_from_axis
        0 Orientation.Axial Interpolation.None = some img ∧
      img.width = 2 ∧ img.height = 1 ∧
      ∀ r c : ℕ, r < 1 → c < 2 →
        img.pixels[r * 2 + c]? =
          some (Volume.normalize_to_u8 (if c = 0 then 129 else 257)) :=
  C8_none_mode_truncating_normalize
    (Volume.new 1 1 2 (fun _ _ x => if x = 0 then 129 else 257) (1, 1, 1)) 0 Orientation.Axial
    ⟨1, 2, fun _ x => if x = 0 then 129 else 257⟩
    (get_slice_from_axis_of_valid _ 0 Orientation.Axial (by decide))

/-- C3 (amended): the CPU resampler maps output pixel (row, col) to the
UNCLAMPED align-corner source coordinates
`(row * (source_height - 1) / max(target_height - 1, 1),
  col * (source_width - 1) / max(target_width - 1, 1))`
— not the half-pixel-center convention — and samples bilinearly there. -/
theorem C3_cpu_uses_align_corners_mapping (s : Slice2) (tw th : ℕ) (img : Image)
    (himg : Volume.interpolate_slice s tw th = some img) (row col : ℕ)
    (hrow : row < th) (hcol : col < tw) :
    img.pixels[row * tw + col]? =
      (Interpolator.bilinear_interpolate s
          ((row : ℚ) * (((s.height - 1 : ℕ) : ℚ) / ((max (th - 1) 1 : ℕ) : ℚ)))
          ((col : ℚ) * (((s.width - 1 : ℕ) : ℚ) / ((max (tw - 1) 1 : ℕ) : ℚ)))).map
        Volume.normalize_to_u8 := by
  simp only [Volume.interpolate_slice] at himg
  rw [Option.bind_eq_some] at himg
  obtain ⟨rows, hmo, himg2⟩ := himg
  rw [imageFromRaw] at himg2
  by_cases hlen : rows.flatten.length = tw * th
  case neg => rw [if_neg hlen] at himg2; exact absurd himg2 (by simp)
  rw [if_pos hlen] at himg2
  obtain rfl : Image.mk tw th rows.flatten = img := Option.some.inj himg2
  have hrowslen : rows.length = th := by simpa using mapOption_length _ hmo
  have hrowlen : ∀ r ∈ rows, r.length = tw := by
    intro r hr
    obtain ⟨i, hilt, hi⟩ := List.mem_iff_getElem.mp hr
    have hg1 : rows[i]? = some r := by rw [List.getElem?_eq_getElem hilt, hi]
    have hg3 := hg1.symm.trans (mapOption_getElem? _ hmo i)
    rw [List.getElem?_range (by rw [hrowslen] at hilt; exact hilt),
      Option.some_bind] at hg3
    simpa using mapOption_length _ hg3.symm
  have hrowlt : row < rows.length := by rw [hrowslen]; exact hrow
  have hrow2 := mapOption_getElem? _ hmo row
  rw [List.getElem?_range hrow, Option.some_bind, List.getElem?_eq_getElem hrowlt] at hrow2
  have hcell := mapOption_getElem? _ hrow2.symm col
  rw [List.getElem?_range hcol, Option.some_bind] at hcell
  show rows.flatten[row * tw + col]? = _
  rw [flatten_getElem?_uniform tw rows hrowlen row col hcol,
    List.getElem?_eq_getElem hrowlt, Option.some_bind]
  exact hcell


/-- C3 counterexample: the Coronal request on the 1×4×2 volume whose
plane is (0, 65535) resamples to width 4; output pixel (0, 1) is 85
(align-corner source coordinate 1/3), while sampling at the
half-pixel-center coordinate the claim prescribes (0.25) would
normalize to 63; the CPU resampler does not use the half-pixel-center
convention. -/
theorem C3_counterexample :
    (Volume.new 1 4 2 (fun _ _ x => if x = 0 then 0 else 65535) (1, 1, 1)).get_image_from_axis
        0 Orientation.Coronal (Interpolation.Bilinear Processor.CPU) =
      some ⟨4, 1, [0, 85, 170, 255]⟩ ∧
    (Image.mk 4 1 [0, 85, 170, 255]).pixels[0 * 4 + 1]? = some 85 ∧
    (Interpolator.bilinear_interpolate testSlice12 (specHalfPixelCoord 0 1 1)
        (specHalfPixelCoord 1 4 2)).map Volume.normalize_to_u8 = some 63 ∧
    (85 : ℕ) ≠ 63 := by
  refine ⟨?_, by decide, ?_, by decide⟩
  · rw [get_image_from_axis_bilinear_coronal,
      get_slice_from_axis_of_valid _ 0 Orientation.Coronal (by decide), Option.some_bind]
    have hps : (Volume.new 1 4 2 (fun _ _ x => if x = 0 then 0 else 65535)
        (1, 1, 1)).get_plane_spacing Orientation.Coronal = (4, 1) := by
      norm_num [Volume.new, Volume.get_plane_spacing,
        Interpolator.get_isotropic_dimensions, floorToNat]
      decide
    rw [hps]
    exact testSlice12_eval
  norm_num [Interpolator.bilinear_interpolate, testSlice12, Slice2.read,
    specHalfPixelCoord, floorToNat, toU16, Volume.normalize_to_u8]
  simp only [Int.reduceToNat]
  norm_num
  decide

/-- C3 witness: the align-corner characterization applied to the 1×2
plane resampled to 4×1 at output pixel (0, 1). -/
theorem C3_witness :
    Volume.interpolate_slice testSlice12 4 1 = some ⟨4, 1, [0, 85, 170, 255]⟩ ∧
    (0 : ℕ) < 1 ∧ (1 : ℕ) < 4 ∧
    (Image.mk 4 1 [0, 85, 170, 255]).pixels[0 * 4 + 1]? =
      (Interpolator.bilinear_interpolate testSlice12
          (((0 : ℕ) : ℚ) * (((testSlice12.height - 1 : ℕ) : ℚ) / ((max (1 - 1) 1 : ℕ) : ℚ)))
          (((1 : ℕ) : ℚ) * (((testSlice12.width - 1 : ℕ) : ℚ) / ((max (4 - 1) 1 : ℕ) : ℚ)))).map
        Volume.normalize_to_u8 :=
  ⟨testSlice12_eval, by decide, by decide,
    C3_cpu_uses_align_corners_mapping testSlice12 4 1 _ testSlice12_eval 0 1 (by decide)
      (by decide)⟩

/-- C1 (code bug): with isotropic spacing (1, 1, 1) on the 1×2×3 volume
the Coronal CPU bilinear image is 2×1 — `get_plane_spacing` takes the
target width from the FIXED height axis — while the unresampled
normalized plane is 3×1, so the identity-resample round trip fails
already on the output dimensions. -/
theorem C1_coronal_identity_resample_fails :
    (Volume.new 1 2 3 (fun _ _ _ => 0) (1, 1, 1)).get_image_from_axis 0 Orientation.Coronal
        (Interpolation.Bilinear Processor.CPU) = some ⟨2, 1, [0, 0]⟩ ∧
    ((Volume.new 1 2 3 (fun _ _ _ => 0) (1, 1, 1)).get_slice_from_axis 0
        Orientation.Coronal).bind Volume.slice_to_image = some ⟨3, 1, [0, 0, 0]⟩ ∧
    (Image.mk 2 1 [0, 0]).width ≠ (Image.mk 3 1 [0, 0, 0]).width := by
  refine ⟨?_, ?_, by decide⟩
  · rw [get_image_from_axis_bilinear_coronal,
      get_slice_from_axis_of_valid _ 0 Orientation.Coronal (by decide), Option.some_bind]
    have hps : (Volume.new 1 2 3 (fun _ _ _ => 0) (1, 1, 1)).get_plane_spacing
        Orientation.Coronal = (2, 1) := by
      norm_num [Volume.new, Volume.get_plane_spacing,
        Interpolator.get_isotropic_dimensions, floorToNat]
      decide
    rw [hps]
    norm_num [Volume.new, Volume.interpolate_slice, mapOption, List.range_succ,
      Interpolator.bilinear_interpolate, Slice2.read, floorToNat, toU16,
      Volume.normalize_to_u8, imageFromRaw]
  · rw [get_slice_from_axis_of_valid _ 0 Orientation.Coronal (by decide), Option.some_bind]
    norm_num [Volume.new, Volume.slice_to_image, List.range_succ, Volume.normalize_to_u8,
      floorToNat, imageFromRaw]

end Claims

end DicomVolume
